import Mathlib

/-!
# Verification of `helpers_128bit.rs` (Substrate `sp-arithmetic`)

A shallow embedding of the 128-bit helper functions from
`primitives/arithmetic/src/helpers_128bit.rs` into Lean, together with proofs
of the specified properties.

Conventions of the embedding:
* Rust `u128` values are `Nat`s; every Rust arithmetic operation that can wrap
  is followed by an explicit `% 2 ^ 128` (Rust release-mode wrapping
  semantics); `x >> 64` is `x / 2 ^ 64`, `x << k` is `x * 2 ^ k % 2 ^ 128`,
  and the mask `((1 << 64) - 1) & x` is `x % 2 ^ 64`.
* Rust `checked_*` operations return `Option`; a Rust `unwrap`/panic is
  modelled by an outer `Option` layer (`none` = panic).
* The external arbitrary-precision `biguint` collaborator is not part of the
  sources under study; its operations are modelled from the spec (see the
  `Modelled from the spec:` doc comments below) as exact `Nat` arithmetic.
-/

namespace Helpers128

/-- Rust `lo`: `((1u128 << 64) - 1) & x`, i.e. the low 64 bits of `x`. -/
def lo (x : Nat) : Nat := x % 2 ^ 64

/-- Rust `hi`: `x >> 64`, i.e. the high 64 bits of `x`. -/
def hi (x : Nat) : Nat := x / 2 ^ 64

/-- Rust `multiply`: schoolbook 128×128→256-bit multiplication on 64-bit
limbs, returning `(carry, result)`.  Each Rust `u128` operation is given
wrapping semantics via `% 2 ^ 128`; `(s1 << 64) | s0` is
`s1 * 2 ^ 64 % 2 ^ 128 ||| s0`. -/
def multiply (a b : Nat) : Nat × Nat :=
  let x := lo a * lo b % 2 ^ 128
  let s0 := lo x
  let x := (hi a * lo b % 2 ^ 128 + hi x) % 2 ^ 128
  let s1 := lo x
  let s2 := hi x
  let x := (s1 + lo a * hi b % 2 ^ 128) % 2 ^ 128
  let s1 := lo x
  let x := ((s2 + hi a * hi b % 2 ^ 128) % 2 ^ 128 + hi x) % 2 ^ 128
  let s2 := lo x
  let s3 := hi x
  let result := s1 * 2 ^ 64 % 2 ^ 128 ||| s0
  let carry := s3 * 2 ^ 64 % 2 ^ 128 ||| s2
  (carry, result)

/-- Bitwise-or of a value shifted past `n` bits with a value below `2 ^ n`
is their sum (the two operands occupy disjoint bit ranges). -/
theorem lor_eq_add_of_lt (x y n : Nat) (hy : y < 2 ^ n) :
    x * 2 ^ n ||| y = x * 2 ^ n + y := by
  have hmod : (x * 2 ^ n ||| y) % 2 ^ n = y := by
    apply Nat.eq_of_testBit_eq
    intro i
    rw [Nat.testBit_mod_two_pow, Nat.testBit_lor, ← Nat.shiftLeft_eq_mul_pow,
      Nat.testBit_shiftLeft]
    by_cases hin : i < n
    · have hge : ¬ (n ≤ i) := Nat.not_le_of_lt hin
      simp [hin, hge]
    · have hyi : y.testBit i = false :=
        Nat.testBit_lt_two_pow
          (lt_of_lt_of_le hy (Nat.pow_le_pow_right (by norm_num) (Nat.le_of_not_lt hin)))
      simp [hin, hyi]
  have hdiv : (x * 2 ^ n ||| y) / 2 ^ n = x := by
    rw [← Nat.shiftRight_eq_div_pow]
    apply Nat.eq_of_testBit_eq
    intro i
    rw [Nat.testBit_shiftRight, Nat.testBit_lor, ← Nat.shiftLeft_eq_mul_pow,
      Nat.testBit_shiftLeft]
    have hyi : y.testBit (n + i) = false :=
      Nat.testBit_lt_two_pow
        (lt_of_lt_of_le hy (Nat.pow_le_pow_right (by norm_num) (Nat.le_add_right n i)))
    have hge : n ≤ n + i := Nat.le_add_right n i
    simp [hyi, hge]
  have hdm := Nat.div_add_mod (x * 2 ^ n ||| y) (2 ^ n)
  calc x * 2 ^ n ||| y
      = 2 ^ n * ((x * 2 ^ n ||| y) / 2 ^ n) + (x * 2 ^ n ||| y) % 2 ^ n := hdm.symm
    _ = x * 2 ^ n + y := by rw [hdiv, hmod, Nat.mul_comm]

/-- C1: for all 128-bit `a`, `b`, `multiply a b = (carry, result)` satisfies
`a * b = carry * 2 ^ 128 + result`; in particular no intermediate `u128`
operation wraps. -/
theorem multiply_correct (a b : Nat) (ha : a < 2 ^ 128) (hb : b < 2 ^ 128) :
    (multiply a b).1 * 2 ^ 128 + (multiply a b).2 = a * b := by
  simp only [multiply, lo, hi]
  have hab : a * b = a / 2 ^ 64 * (b / 2 ^ 64) * 2 ^ 128
      + (a / 2 ^ 64 * (b % 2 ^ 64) + a % 2 ^ 64 * (b / 2 ^ 64)) * 2 ^ 64
      + a % 2 ^ 64 * (b % 2 ^ 64) := by
    have da : 2 ^ 64 * (a / 2 ^ 64) + a % 2 ^ 64 = a := Nat.div_add_mod a (2 ^ 64)
    have db : 2 ^ 64 * (b / 2 ^ 64) + b % 2 ^ 64 = b := Nat.div_add_mod b (2 ^ 64)
    calc a * b
        = (2 ^ 64 * (a / 2 ^ 64) + a % 2 ^ 64) * (2 ^ 64 * (b / 2 ^ 64) + b % 2 ^ 64) := by
          rw [da, db]
      _ = _ := by ring
  rw [hab]
  have uP1 : a % 2 ^ 64 * (b % 2 ^ 64) ≤ (2 ^ 64 - 1) * (2 ^ 64 - 1) :=
    Nat.mul_le_mul (by omega) (by omega)
  have uP2 : a / 2 ^ 64 * (b % 2 ^ 64) ≤ (2 ^ 64 - 1) * (2 ^ 64 - 1) :=
    Nat.mul_le_mul (by omega) (by omega)
  have uP3 : a % 2 ^ 64 * (b / 2 ^ 64) ≤ (2 ^ 64 - 1) * (2 ^ 64 - 1) :=
    Nat.mul_le_mul (by omega) (by omega)
  have uP4 : a / 2 ^ 64 * (b / 2 ^ 64) ≤ (2 ^ 64 - 1) * (2 ^ 64 - 1) :=
    Nat.mul_le_mul (by omega) (by omega)
  generalize hP1 : a % 2 ^ 64 * (b % 2 ^ 64) = P1
  rw [hP1] at uP1
  generalize hP2 : a / 2 ^ 64 * (b % 2 ^ 64) = P2
  rw [hP2] at uP2
  generalize hP3 : a % 2 ^ 64 * (b / 2 ^ 64) = P3
  rw [hP3] at uP3
  generalize hP4 : a / 2 ^ 64 * (b / 2 ^ 64) = P4
  rw [hP4] at uP4
  rw [Nat.mod_eq_of_lt (show P1 < 2 ^ 128 by omega),
    Nat.mod_eq_of_lt (show P2 < 2 ^ 128 by omega),
    Nat.mod_eq_of_lt (show P3 < 2 ^ 128 by omega),
    Nat.mod_eq_of_lt (show P4 < 2 ^ 128 by omega)]
  have h1 : P2 + P1 / 2 ^ 64 < 2 ^ 128 := by omega
  rw [Nat.mod_eq_of_lt h1]
  set e2 : Nat := P2 + P1 / 2 ^ 64 with he2
  have h2 : e2 % 2 ^ 64 + P3 < 2 ^ 128 := by omega
  rw [Nat.mod_eq_of_lt h2]
  set e3 : Nat := e2 % 2 ^ 64 + P3 with he3
  have h3 : e2 / 2 ^ 64 + P4 < 2 ^ 128 := by omega
  rw [Nat.mod_eq_of_lt h3]
  have h4 : e2 / 2 ^ 64 + P4 + e3 / 2 ^ 64 < 2 ^ 128 := by omega
  rw [Nat.mod_eq_of_lt h4]
  set e4 : Nat := e2 / 2 ^ 64 + P4 + e3 / 2 ^ 64 with he4
  have h5 : e3 % 2 ^ 64 * 2 ^ 64 < 2 ^ 128 := by omega
  rw [Nat.mod_eq_of_lt h5]
  have h6 : e4 / 2 ^ 64 * 2 ^ 64 < 2 ^ 128 := by omega
  rw [Nat.mod_eq_of_lt h6]
  have hy1 : P1 % 2 ^ 64 < 2 ^ 64 := by omega
  have hy2 : e4 % 2 ^ 64 < 2 ^ 64 := by omega
  rw [lor_eq_add_of_lt _ _ 64 hy2, lor_eq_add_of_lt _ _ 64 hy1]
  omega

/-- Witness for C1 at the maximum operands `a = b = 2 ^ 128 - 1`. -/
theorem multiply_correct_witness :
    (2 ^ 128 - 1 : Nat) < 2 ^ 128 ∧
      (multiply (2 ^ 128 - 1) (2 ^ 128 - 1)).1 * 2 ^ 128
        + (multiply (2 ^ 128 - 1) (2 ^ 128 - 1)).2 = (2 ^ 128 - 1) * (2 ^ 128 - 1) :=
  ⟨by norm_num, multiply_correct _ _ (by norm_num) (by norm_num)⟩

/-- Bit length of `x`, computed with explicit fuel so that it is structural
recursion (kernel-evaluable); `bit_len_aux fuel x` is the exact bit length of
`x` whenever `x < 2 ^ fuel`. -/
def bit_len_aux : Nat → Nat → Nat
  | 0, _ => 0
  | fuel + 1, x => if x = 0 then 0 else bit_len_aux fuel (x / 2) + 1

theorem bit_len_aux_le (fuel : Nat) : ∀ x : Nat, bit_len_aux fuel x ≤ fuel := by
  induction fuel with
  | zero => intro x; simp [bit_len_aux]
  | succ n ih =>
    intro x
    simp only [bit_len_aux]
    split
    · omega
    · have := ih (x / 2)
      omega

theorem lt_two_pow_bit_len (fuel : Nat) :
    ∀ x : Nat, x < 2 ^ fuel → x < 2 ^ bit_len_aux fuel x := by
  induction fuel with
  | zero => intro x hx; simpa [bit_len_aux] using hx
  | succ n ih =>
    intro x hx
    simp only [bit_len_aux]
    split
    · simpa
    · rw [pow_succ] at hx
      have hx2 : x / 2 < 2 ^ n := by
        have h2n : 0 < 2 ^ n := Nat.pos_pow_of_pos n (by norm_num)
        omega
      have := ih (x / 2) hx2
      rw [pow_succ]
      omega

theorem bit_len_aux_pos (fuel x : Nat) (hx : x ≠ 0) : 1 ≤ bit_len_aux (fuel + 1) x := by
  simp [bit_len_aux, hx]

/-- Rust `u128::leading_zeros`: `128` minus the bit length (exact for
`x < 2 ^ 128`, which is the only range the embedding uses). -/
def leading_zeros (x : Nat) : Nat := 128 - bit_len_aux 128 x

theorem leading_zeros_le (x : Nat) : leading_zeros x ≤ 128 := by
  unfold leading_zeros; omega

theorem leading_zeros_of_ne_zero (x : Nat) (hx : x ≠ 0) : leading_zeros x ≤ 127 := by
  unfold leading_zeros
  have h1 : 1 ≤ bit_len_aux 128 x := bit_len_aux_pos 127 x hx
  omega

theorem leading_zeros_zero_iff (x : Nat) : leading_zeros x = 128 ↔ x = 0 := by
  constructor
  · intro h
    by_contra hx
    have := leading_zeros_of_ne_zero x hx
    omega
  · intro h
    subst h
    simp [leading_zeros, bit_len_aux]

/-- Shifting `x` left by at most its number of leading zeros keeps it below
`2 ^ 128`. -/
theorem shl_le_leading_zeros_lt (x : Nat) (hx : x < 2 ^ 128) (s : Nat)
    (hs : s ≤ leading_zeros x) : x * 2 ^ s < 2 ^ 128 := by
  have hb := lt_two_pow_bit_len 128 x hx
  have hle := bit_len_aux_le 128 x
  calc x * 2 ^ s < 2 ^ bit_len_aux 128 x * 2 ^ s :=
        mul_lt_mul_of_pos_right hb (Nat.pos_pow_of_pos s (by norm_num))
    _ = 2 ^ (bit_len_aux 128 x + s) := by rw [← pow_add]
    _ ≤ 2 ^ 128 := Nat.pow_le_pow_right (by norm_num) (by
        unfold leading_zeros at hs; omega)

/-- A value below `2 ^ 128` is below `2` to the power `128` minus any lower
bound of its leading-zero count. -/
theorem lt_two_pow_of_le_leading_zeros (x : Nat) (hx : x < 2 ^ 128) (k : Nat)
    (hk : k ≤ leading_zeros x) : x < 2 ^ (128 - k) := by
  have hb := lt_two_pow_bit_len 128 x hx
  have hle := bit_len_aux_le 128 x
  calc x < 2 ^ bit_len_aux 128 x := hb
    _ ≤ 2 ^ (128 - k) := Nat.pow_le_pow_right (by norm_num) (by
        unfold leading_zeros at hk; omega)

/-- Rust `u128::checked_shl`: `none` iff the shift amount is ≥ 128; the
shifted value wraps modulo `2 ^ 128`. -/
def checked_shl (x s : Nat) : Option Nat :=
  if s < 128 then some (x * 2 ^ s % 2 ^ 128) else none

/-- Rust `u128::checked_div`: `none` iff the divisor is zero. -/
def checked_div (x y : Nat) : Option Nat := if y = 0 then none else some (x / y)

/-- Rust `u128::checked_rem`: `none` iff the divisor is zero. -/
def checked_rem (x y : Nat) : Option Nat := if y = 0 then none else some (x % y)

/-- Rust `u128::checked_add`: `none` iff the sum overflows 128 bits. -/
def checked_add (x y : Nat) : Option Nat :=
  if x + y < 2 ^ 128 then some (x + y) else none

/-- Rust `divide`: computes `(a * 2 ^ p) / b` by shifting `a` as far as its
leading zeros allow, dividing, and refining once more with the remainder.
The outer `Option` models a panic of one of the internal `unwrap`s
(`none` = panic); the inner `Option` is the function's own result
(`some none` = the Rust function returns `None`). -/
def divide (a b p : Nat) : Option (Option Nat) :=
  let shift := min (leading_zeros a) p
  match checked_shl a shift with
  | none => none
  | some a1 =>
    let p1 := p - shift
    match checked_div a1 b, checked_rem a1 b with
    | some d, some r =>
      if p1 = 0 then some (some d)
      else if leading_zeros d < p1 then some none
      else
        match checked_shl d p1 with
        | none => none
        | some n =>
          if r = 0 then some (some n)
          else
            let shift2 := min (leading_zeros r) p1
            match checked_shl r shift2 with
            | none => none
            | some a2 =>
              let p2 := p1 - shift2
              match checked_div a2 b, checked_rem a2 b with
              | some d2, some _ =>
                if p2 = 0 then
                  match checked_add d2 n with
                  | some s => some (some s)
                  | none => none
                else some none
              | _, _ => none
    | _, _ => none

set_option maxRecDepth 8192 in
/-- C8: at the 128-bit overflow boundary, `divide (2 ^ 126) 1 1` succeeds with
`2 ^ 127` while `divide (2 ^ 127) 1 1` reports overflow (`None`). -/
theorem divide_boundary :
    divide (2 ^ 126) 1 1 = some (some (2 ^ 127)) ∧ divide (2 ^ 127) 1 1 = some none := by
  constructor <;> rfl

/-- Dividing a split numerator: `(d * b + r) * 2 ^ k / b = d * 2 ^ k + r * 2 ^ k / b`. -/
theorem div_shift_split (d r b k : Nat) (hb : 0 < b) :
    (d * b + r) * 2 ^ k / b = d * 2 ^ k + r * 2 ^ k / b := by
  have h : (d * b + r) * 2 ^ k = r * 2 ^ k + d * 2 ^ k * b := by ring
  rw [h, Nat.add_mul_div_right _ _ hb, Nat.add_comm]

/-- C2: whenever `divide a b p` returns a value (no panic, not `None`), that
value is exactly `⌊a * 2 ^ p / b⌋`. -/
theorem divide_some_correct (a b p v : Nat) (ha : a < 2 ^ 128) (hb : 1 ≤ b)
    (hp : p ≤ 255) (h : divide a b p = some (some v)) : v = a * 2 ^ p / b := by
  have hbne : b ≠ 0 := by omega
  have hbpos : 0 < b := by omega
  by_cases hs : min (leading_zeros a) p < 128
  case neg => simp [divide, checked_shl, hs] at h
  case pos =>
  have ha1lt : a * 2 ^ min (leading_zeros a) p < 2 ^ 128 :=
    shl_le_leading_zeros_lt a ha _ (min_le_left _ _)
  have e1 : checked_shl a (min (leading_zeros a) p) =
      some (a * 2 ^ min (leading_zeros a) p) := by
    unfold checked_shl
    rw [if_pos hs, Nat.mod_eq_of_lt ha1lt]
  have hshle : min (leading_zeros a) p ≤ p := min_le_right _ _
  set sh := min (leading_zeros a) p with hsh
  set a1 := a * 2 ^ sh with ha1
  set p1 := p - sh with hp1def
  set d := a1 / b with hd
  set r := a1 % b with hr
  have e2 : checked_div a1 b = some d := by simp [checked_div, hbne]
  have e3 : checked_rem a1 b = some r := by simp [checked_rem, hbne]
  have hdlt : d < 2 ^ 128 := lt_of_le_of_lt (hd ▸ Nat.div_le_self a1 b) ha1lt
  have hrlt : r < 2 ^ 128 := lt_of_le_of_lt (hr ▸ Nat.mod_le a1 b) ha1lt
  have hsplit : a1 = d * b + r := by
    rw [hd, hr, Nat.mul_comm]
    exact (Nat.div_add_mod a1 b).symm
  have hkey : a * 2 ^ p = a1 * 2 ^ p1 := by
    rw [ha1, mul_assoc, ← pow_add]
    have hsp : sh + p1 = p := by omega
    rw [hsp]
  simp only [divide, ← hsh, e1, ← hp1def, e2, e3] at h
  by_cases h0 : p1 = 0
  · rw [if_pos h0] at h
    simp only [Option.some.injEq] at h
    have hshp : sh = p := by omega
    rw [← h, hd, ha1, hshp]
  · rw [if_neg h0] at h
    by_cases hov : leading_zeros d < p1
    · rw [if_pos hov] at h
      simp at h
    · rw [if_neg hov] at h
      by_cases hp128 : p1 < 128
      · have hnlt : d * 2 ^ p1 < 2 ^ 128 :=
          shl_le_leading_zeros_lt d hdlt p1 (Nat.le_of_not_lt hov)
        have e4 : checked_shl d p1 = some (d * 2 ^ p1) := by
          unfold checked_shl
          rw [if_pos hp128, Nat.mod_eq_of_lt hnlt]
        rw [e4] at h
        simp only at h
        by_cases hr0 : r = 0
        · rw [if_pos hr0] at h
          simp only [Option.some.injEq] at h
          rw [← h, hkey, hsplit, hr0, Nat.add_zero, Nat.mul_comm d b, mul_assoc,
            Nat.mul_div_cancel_left _ hbpos]
        · rw [if_neg hr0] at h
          have hsh2lt : min (leading_zeros r) p1 < 128 := by
            have := leading_zeros_of_ne_zero r hr0
            have := min_le_left (leading_zeros r) p1
            omega
          have ha2lt : r * 2 ^ min (leading_zeros r) p1 < 2 ^ 128 :=
            shl_le_leading_zeros_lt r hrlt _ (min_le_left _ _)
          have e5 : checked_shl r (min (leading_zeros r) p1) =
              some (r * 2 ^ min (leading_zeros r) p1) := by
            unfold checked_shl
            rw [if_pos hsh2lt, Nat.mod_eq_of_lt ha2lt]
          have hsh2le : min (leading_zeros r) p1 ≤ p1 := min_le_right _ _
          set sh2 := min (leading_zeros r) p1 with hsh2
          set a2 := r * 2 ^ sh2 with ha2
          set p2 := p1 - sh2 with hp2def
          set d2 := a2 / b with hd2
          have e6 : checked_div a2 b = some d2 := by simp [checked_div, hbne]
          have e7 : checked_rem a2 b = some (a2 % b) := by simp [checked_rem, hbne]
          rw [e5] at h
          simp only [← hp2def, e6, e7] at h
          by_cases hq : p2 = 0
          · rw [if_pos hq] at h
            by_cases hadd : d2 + d * 2 ^ p1 < 2 ^ 128
            · rw [show checked_add d2 (d * 2 ^ p1) = some (d2 + d * 2 ^ p1) by
                unfold checked_add
                rw [if_pos hadd]] at h
              simp only [Option.some.injEq] at h
              have hsh2p : sh2 = p1 := by omega
              rw [← h, hkey, hsplit, div_shift_split d r b p1 hbpos, hd2, ha2, hsh2p,
                Nat.add_comm]
            · rw [show checked_add d2 (d * 2 ^ p1) = none by
                unfold checked_add
                rw [if_neg hadd]] at h
              simp at h
          · rw [if_neg hq] at h
            simp at h
      · have e4 : checked_shl d p1 = none := by
          unfold checked_shl
          rw [if_neg hp128]
        rw [e4] at h
        simp at h

/-- C5 counterexample: `divide 0 1 128` panics: the first shift amount is
`min (leading_zeros 0) 128 = 128`, so `checked_shl` returns `None` and the
`unwrap` fails (modelled by the outer `none`). -/
theorem divide_panic_counterexample : divide 0 1 128 = none := rfl

/-- C5 (amended): `divide` returns without panicking for all 128-bit `a`,
`b ≥ 1`, `p ≤ 255`, except in the two cases where a shift amount of exactly
128 bits reaches `checked_shl(..).unwrap()`: `a = 0` with `p ≥ 128`, and
first-pass quotient zero (`a * 2 ^ shift < b`) with remaining exponent
exactly 128.  In particular it never panics when `p ≤ 127`. -/
theorem divide_no_panic (a b p : Nat) (ha : a < 2 ^ 128) (hb : 1 ≤ b) (hp : p ≤ 255)
    (h1 : ¬(a = 0 ∧ 128 ≤ p))
    (h2 : ¬(p - min (leading_zeros a) p = 128 ∧ a * 2 ^ min (leading_zeros a) p < b)) :
    (divide a b p).isSome = true := by
  have hbne : b ≠ 0 := by omega
  have hbpos : 0 < b := by omega
  have hs : min (leading_zeros a) p < 128 := by
    by_cases haz : a = 0
    · have hple : p < 128 := by
        by_contra hc
        exact h1 ⟨haz, by omega⟩
      have := min_le_right (leading_zeros a) p
      omega
    · have := leading_zeros_of_ne_zero a haz
      have := min_le_left (leading_zeros a) p
      omega
  have ha1lt : a * 2 ^ min (leading_zeros a) p < 2 ^ 128 :=
    shl_le_leading_zeros_lt a ha _ (min_le_left _ _)
  have e1 : checked_shl a (min (leading_zeros a) p) =
      some (a * 2 ^ min (leading_zeros a) p) := by
    unfold checked_shl
    rw [if_pos hs, Nat.mod_eq_of_lt ha1lt]
  have hshle : min (leading_zeros a) p ≤ p := min_le_right _ _
  set sh := min (leading_zeros a) p with hsh
  set a1 := a * 2 ^ sh with ha1
  set p1 := p - sh with hp1def
  set d := a1 / b with hd
  set r := a1 % b with hr
  have e2 : checked_div a1 b = some d := by simp [checked_div, hbne]
  have e3 : checked_rem a1 b = some r := by simp [checked_rem, hbne]
  have hdlt : d < 2 ^ 128 := lt_of_le_of_lt (hd ▸ Nat.div_le_self a1 b) ha1lt
  have hrlt : r < 2 ^ 128 := lt_of_le_of_lt (hr ▸ Nat.mod_le a1 b) ha1lt
  simp only [divide, ← hsh, e1, ← hp1def, e2, e3]
  by_cases h0 : p1 = 0
  · rw [if_pos h0]; rfl
  · rw [if_neg h0]
    by_cases hov : leading_zeros d < p1
    · rw [if_pos hov]; rfl
    · rw [if_neg hov]
      have hle : p1 ≤ leading_zeros d := Nat.le_of_not_lt hov
      have hld := leading_zeros_le d
      have hp128 : p1 < 128 := by
        rcases Nat.lt_or_ge p1 128 with hcase | hcase
        · exact hcase
        · exfalso
          have hlzd : leading_zeros d = 128 := by omega
          have hd0 : d = 0 := (leading_zeros_zero_iff d).mp hlzd
          have ha1b : a1 < b := by
            rw [hd] at hd0
            exact (Nat.div_eq_zero_iff hbpos).mp hd0
          exact h2 ⟨by omega, ha1b⟩
      have hnlt : d * 2 ^ p1 < 2 ^ 128 := shl_le_leading_zeros_lt d hdlt p1 hle
      have e4 : checked_shl d p1 = some (d * 2 ^ p1) := by
        unfold checked_shl
        rw [if_pos hp128, Nat.mod_eq_of_lt hnlt]
      rw [e4]
      simp only
      by_cases hr0 : r = 0
      · rw [if_pos hr0]; rfl
      · rw [if_neg hr0]
        have hsh2lt : min (leading_zeros r) p1 < 128 := by
          have := leading_zeros_of_ne_zero r hr0
          have := min_le_left (leading_zeros r) p1
          omega
        have ha2lt : r * 2 ^ min (leading_zeros r) p1 < 2 ^ 128 :=
          shl_le_leading_zeros_lt r hrlt _ (min_le_left _ _)
        have e5 : checked_shl r (min (leading_zeros r) p1) =
            some (r * 2 ^ min (leading_zeros r) p1) := by
          unfold checked_shl
          rw [if_pos hsh2lt, Nat.mod_eq_of_lt ha2lt]
        have hsh2le : min (leading_zeros r) p1 ≤ p1 := min_le_right _ _
        set sh2 := min (leading_zeros r) p1 with hsh2
        set a2 := r * 2 ^ sh2 with ha2
        set p2 := p1 - sh2 with hp2def
        set d2 := a2 / b with hd2
        have e6 : checked_div a2 b = some d2 := by simp [checked_div, hbne]
        have e7 : checked_rem a2 b = some (a2 % b) := by simp [checked_rem, hbne]
        rw [e5]
        simp only [← hp2def, e6, e7]
        by_cases hq : p2 = 0
        · rw [if_pos hq]
          have hp1pos : (0 : Nat) < 2 ^ p1 := Nat.pos_pow_of_pos p1 (by norm_num)
          have hrb : r < b := by rw [hr]; exact Nat.mod_lt _ hbpos
          have hsh2p : sh2 = p1 := by omega
          have hd2lt : d2 < 2 ^ p1 := by
            rw [hd2, ha2, hsh2p, Nat.div_lt_iff_lt_mul hbpos]
            calc r * 2 ^ p1 < b * 2 ^ p1 :=
                  mul_lt_mul_of_pos_right hrb hp1pos
              _ = 2 ^ p1 * b := Nat.mul_comm b (2 ^ p1)
          have h128eq : 128 - p1 + p1 = 128 := by omega
          have hdlt2 : d < 2 ^ (128 - p1) := lt_two_pow_of_le_leading_zeros d hdlt p1 hle
          have hnle : d * 2 ^ p1 ≤ 2 ^ 128 - 2 ^ p1 := by
            have hd1 : d ≤ 2 ^ (128 - p1) - 1 := by omega
            calc d * 2 ^ p1 ≤ (2 ^ (128 - p1) - 1) * 2 ^ p1 :=
                  Nat.mul_le_mul_right _ hd1
              _ = 2 ^ (128 - p1) * 2 ^ p1 - 2 ^ p1 := by rw [Nat.sub_mul, one_mul]
              _ = 2 ^ 128 - 2 ^ p1 := by rw [← pow_add, h128eq]
          have hpow_le : (2 : Nat) ^ p1 ≤ 2 ^ 128 :=
            Nat.pow_le_pow_right (by norm_num) (by omega)
          have hadd : d2 + d * 2 ^ p1 < 2 ^ 128 := by omega
          rw [show checked_add d2 (d * 2 ^ p1) = some (d2 + d * 2 ^ p1) by
            unfold checked_add
            rw [if_pos hadd]]
          rfl
        · rw [if_neg hq]; rfl

/-- Witness for C5 (amended) at `a = 1`, `b = 1`, `p = 130`. -/
theorem divide_no_panic_witness :
    (1 : Nat) < 2 ^ 128 ∧ (divide 1 1 130).isSome = true :=
  ⟨by norm_num, divide_no_panic 1 1 130 (by norm_num) (by norm_num) (by norm_num)
    (by simp) (by decide)⟩

/-- Witness for C2 at `a = 4`, `b = 2`, `p = 1` where `divide` returns
`Some 4 = ⌊4 * 2 / 2⌋`. -/
theorem divide_some_correct_witness : (4 : Nat) = 4 * 2 ^ 1 / 2 :=
  divide_some_correct 4 2 1 4 (by norm_num) (by norm_num) (by norm_num) (by rfl)

/-- Rust `gcd` (binary / Stein's algorithm), with explicit recursion fuel so
that the recursion is structural; `none` models either fuel exhaustion or the
final `unreachable!()` arm.  The `<< 1` in the both-even case wraps modulo
`2 ^ 128` like the Rust `u128` shift. -/
def gcd : Nat → Nat → Nat → Option Nat
  | 0, _, _ => none
  | fuel + 1, a, b =>
    if a = b then some b
    else if a = 0 then some b
    else if b = 0 then some a
    else if a % 2 = 0 ∧ b % 2 = 1 then gcd fuel (a / 2) b
    else if a % 2 = 1 ∧ b % 2 = 0 then gcd fuel (b / 2) a
    else if a % 2 = 0 ∧ b % 2 = 0 then
      (gcd fuel (a / 2) (b / 2)).map (fun g => g * 2 % 2 ^ 128)
    else if a % 2 = 1 ∧ b % 2 = 1 then
      gcd fuel ((max a b - min a b) / 2) (min a b)
    else none

/-- Any fuel exceeding `a + b` makes `gcd` return a value: each recursive
call strictly decreases `a + b`, and the `unreachable!()` arm is never hit. -/
theorem gcd_fuel_sufficient (fuel : Nat) :
    ∀ a b : Nat, a + b < fuel → (gcd fuel a b).isSome = true := by
  induction fuel with
  | zero => intro a b h; omega
  | succ n ih =>
    intro a b h
    simp only [gcd]
    split_ifs with h1 h2 h3 h4 h5 h6 h7
    · rfl
    · rfl
    · rfl
    · exact ih (a / 2) b (by omega)
    · exact ih (b / 2) a (by omega)
    · rw [Option.isSome_map']
      exact ih (a / 2) (b / 2) (by omega)
    · exact ih ((max a b - min a b) / 2) (min a b) (by omega)
    · omega

/-- C9: `gcd` terminates for every pair of 128-bit operands: the measure
`a + b` strictly decreases at each recursive call, so fuel `2 ^ 129` (at
least `a + b + 1` for 128-bit operands) always yields a result — the
recursion cannot diverge and the `unreachable!()` arm is never taken. -/
theorem gcd_terminates (a b : Nat) (ha : a < 2 ^ 128) (hb : b < 2 ^ 128) :
    (gcd (2 ^ 129) a b).isSome = true :=
  gcd_fuel_sufficient (2 ^ 129) a b (by omega)

/-- Witness for C9 at `a = 6`, `b = 4`. -/
theorem gcd_terminates_witness :
    (6 : Nat) < 2 ^ 128 ∧ (gcd (2 ^ 129) 6 4).isSome = true :=
  ⟨by norm_num, gcd_terminates 6 4 (by norm_num) (by norm_num)⟩

/-- Modelled from the spec: the external arbitrary-precision integer type
(`biguint`, spec §1/§6 — consumed, not owned, and absent from the sources
under study) is represented by the exact natural number it denotes, so
`to_big_uint` (spec §4.2) and `lstrip` normalization are the identity. -/
def to_big_uint (x : Nat) : Nat := x

/-- Modelled from the spec: the external type's fast single-limb division
path (`div_unit`), a truncating division (spec §4.4 step 5, §6). -/
def div_unit (x c : Nat) : Nat := x / c

/-- Modelled from the spec: the external type's general division returning
quotient and remainder (spec §4.4 step 5, §6); its defensive "no result"
case is unreachable in the configurations `multiply_by_rational` uses
(spec §7), and the caller substitutes `(0, 0)` there anyway, so the
reachable behavior is the exact Euclidean quotient and remainder. -/
def big_div (x c : Nat) : Nat × Nat := (x / c, x % c)

/-- Modelled from the spec: conversion from the arbitrary-precision type
back to 128 bits, failing exactly when the value does not fit (spec §4.2,
§6). -/
def big_try_into (x : Nat) : Option Nat :=
  if x < 2 ^ 128 then some x else none

/-- Rust `multiply_by_rational`: compute `a * b / c` with a native checked
`u128` fast path and an arbitrary-precision fallback (the biguint operations
are modelled from the spec, see above).  `c` is clamped to a minimum of 1,
the larger operand is moved into `a`, and an exactly-dividing `c` is applied
early, as in the source.  The `len() == 1` test on the normalized limb
sequence of `c` (four 32-bit limbs, leading zeros stripped) is `c < 2 ^ 32`. -/
def multiply_by_rational (a b c : Nat) : Except String Nat :=
  if a = 0 ∨ b = 0 then Except.ok 0
  else
    let c1 := max c 1
    let swapped := if b > a then (b, a) else (a, b)
    let a1 := swapped.1
    let b1 := swapped.2
    let reduced : Nat × Nat × Nat :=
      if a1 % c1 = 0 then (a1 / c1, b1, 1)
      else if b1 % c1 = 0 then (a1, b1 / c1, 1)
      else (a1, b1, c1)
    let a2 := reduced.1
    let b2 := reduced.2.1
    let c2 := reduced.2.2
    if a2 * b2 < 2 ^ 128 then
      Except.ok (a2 * b2 / c2)
    else
      let ab := to_big_uint a2 * to_big_uint b2
      let q :=
        if c2 < 2 ^ 32 then
          div_unit ab c2
        else
          let qr := big_div ab c2
          if qr.2 > c2 / 2 then qr.1 + 1 else qr.1
      match big_try_into q with
      | some v => Except.ok v
      | none => Except.error "result cannot fit in u128"

/-- C7: at the maximum operands with `c = 1` the product has no 128-bit
representation, and `multiply_by_rational` fails with the static message. -/
theorem multiply_by_rational_max_overflow :
    multiply_by_rational (2 ^ 128 - 1) (2 ^ 128 - 1) 1 =
      Except.error "result cannot fit in u128" := by
  rfl

/-- C4 counterexample: `multiply_by_rational (2 ^ 100) (2 ^ 100) (2 ^ 64)`
does not return `Ok` with the exact truncated value `2 ^ 136`: that value
exceeds `2 ^ 128 - 1`. -/
theorem multiply_by_rational_2_100_not_ok :
    multiply_by_rational (2 ^ 100) (2 ^ 100) (2 ^ 64) ≠ Except.ok (2 ^ 136) := by
  intro h
  rw [show multiply_by_rational (2 ^ 100) (2 ^ 100) (2 ^ 64) =
    Except.error "result cannot fit in u128" from rfl] at h
  exact Except.noConfusion h

/-- C4 (amended): `multiply_by_rational (2 ^ 100) (2 ^ 100) (2 ^ 64)` returns
`Err "result cannot fit in u128"`, because the exact truncated value
`2 ^ 200 / 2 ^ 64 = 2 ^ 136` has no 128-bit representation. -/
theorem multiply_by_rational_2_100_err :
    multiply_by_rational (2 ^ 100) (2 ^ 100) (2 ^ 64) =
      Except.error "result cannot fit in u128" ∧ 2 ^ 100 * 2 ^ 100 / 2 ^ 64 = (2 ^ 136 : Nat) := by
  constructor <;> rfl

/-- The zero fast-exit is symmetric and the swap step sorts the operands, so
the whole function is symmetric in `a` and `b` (helper shared by several
theorems below). -/
theorem mbr_comm_aux (a b c : Nat) :
    multiply_by_rational a b c = multiply_by_rational b a c := by
  unfold multiply_by_rational
  by_cases h0 : a = 0 ∨ b = 0
  · have h0' : b = 0 ∨ a = 0 := h0.symm
    rw [if_pos h0, if_pos h0']
  · have h0' : ¬(b = 0 ∨ a = 0) := fun h => h0 h.symm
    rw [if_neg h0, if_neg h0']
    rcases lt_trichotomy a b with h | h | h
    · rw [if_pos (show b > a from h), if_neg (show ¬ a > b by omega)]
    · rw [h]
    · rw [if_neg (show ¬ b > a by omega), if_pos (show a > b from h)]

/-- C10: `multiply_by_rational` is symmetric in its first two arguments. -/
theorem multiply_by_rational_symm (a b c : Nat) :
    multiply_by_rational a b c = multiply_by_rational b a c :=
  mbr_comm_aux a b c

/-- Native-path computation for sorted operands (`b ≤ a`): helper for the
native-path theorem below. -/
theorem mbr_native_core (a b c : Nat) (hba : b ≤ a) (ha0 : a ≠ 0) (hb0 : b ≠ 0)
    (hc : 1 ≤ c) (hab : a * b < 2 ^ 128) :
    multiply_by_rational a b c = Except.ok (a * b / c) := by
  unfold multiply_by_rational
  rw [if_neg (show ¬(a = 0 ∨ b = 0) by tauto)]
  have hmax : max c 1 = c := by omega
  rw [hmax, if_neg (show ¬ b > a by omega)]
  dsimp only
  by_cases hac : a % c = 0
  · rw [if_pos hac]
    dsimp only
    have hdvd : c ∣ a := Nat.dvd_of_mod_eq_zero hac
    have hle : a / c * b ≤ a * b := Nat.mul_le_mul_right b (Nat.div_le_self a c)
    rw [if_pos (show a / c * b < 2 ^ 128 by omega), Nat.div_one]
    congr 1
    rw [mul_comm (a / c) b, ← Nat.mul_div_assoc b hdvd, mul_comm b a]
  · rw [if_neg hac]
    by_cases hbc : b % c = 0
    · rw [if_pos hbc]
      dsimp only
      have hdvd : c ∣ b := Nat.dvd_of_mod_eq_zero hbc
      have hle : a * (b / c) ≤ a * b := Nat.mul_le_mul_left a (Nat.div_le_self b c)
      rw [if_pos (show a * (b / c) < 2 ^ 128 by omega), Nat.div_one]
      congr 1
      rw [← Nat.mul_div_assoc a hdvd]
    · rw [if_neg hbc]
      dsimp only
      rw [if_pos hab]

/-- C3: when `c ≥ 1` and the exact product `a * b` fits in 128 bits (so the
native checked multiplication succeeds), the result is `Ok ⌊a * b / c⌋`. -/
theorem multiply_by_rational_native (a b c : Nat) (hc : 1 ≤ c)
    (hab : a * b < 2 ^ 128) :
    multiply_by_rational a b c = Except.ok (a * b / c) := by
  by_cases ha0 : a = 0
  · subst ha0
    unfold multiply_by_rational
    simp
  · by_cases hb0 : b = 0
    · subst hb0
      unfold multiply_by_rational
      simp
    · rcases le_total b a with h | h
      · exact mbr_native_core a b c h ha0 hb0 hc hab
      · rw [mbr_comm_aux a b c, mul_comm a b]
        exact mbr_native_core b a c h hb0 ha0 hc (by rwa [mul_comm])

/-- Witness for C3 at `a = 6`, `b = 10`, `c = 3`. -/
theorem multiply_by_rational_native_witness :
    multiply_by_rational 6 10 3 = Except.ok (6 * 10 / 3) :=
  multiply_by_rational_native 6 10 3 (by norm_num) (by norm_num)

/-- Fallback-path computation for sorted operands (`b ≤ a`) reaching the
big-integer branch with `c` intact: helper for the rounding theorem below. -/
theorem mbr_fallback_core (a b c : Nat) (hba : b ≤ a) (ha0 : a ≠ 0) (hb0 : b ≠ 0)
    (hc : 1 ≤ c) (hac : a % c ≠ 0) (hbc : b % c ≠ 0) (hof : 2 ^ 128 ≤ a * b)
    (q : Nat)
    (hq : q = if c < 2 ^ 32 then a * b / c
          else if c / 2 < a * b % c then a * b / c + 1 else a * b / c)
    (hfit : q < 2 ^ 128) :
    multiply_by_rational a b c = Except.ok q := by
  unfold multiply_by_rational
  rw [if_neg (show ¬(a = 0 ∨ b = 0) by tauto)]
  have hmax : max c 1 = c := by omega
  rw [hmax, if_neg (show ¬ b > a by omega)]
  dsimp only
  rw [if_neg hac, if_neg hbc]
  dsimp only
  rw [if_neg (show ¬ a * b < 2 ^ 128 by omega)]
  dsimp only [to_big_uint, div_unit, big_div]
  rw [show (if c < 2 ^ 32 then a * b / c
      else if c / 2 < a * b % c then a * b / c + 1 else a * b / c) = q from hq.symm]
  rw [show big_try_into q = some q by
    unfold big_try_into
    rw [if_pos hfit]]

/-- C6: in the big-integer overflow fallback the two division sub-paths
round differently: single-limb `c` (`c < 2 ^ 32`) truncates, multi-limb `c`
(`c ≥ 2 ^ 32`) adds one to the floor quotient exactly when the remainder
exceeds `c / 2`. -/
theorem multiply_by_rational_fallback_rounding (a b c : Nat)
    (ha : 1 ≤ a) (hb : 1 ≤ b) (hc : 1 ≤ c)
    (hac : a % c ≠ 0) (hbc : b % c ≠ 0) (hof : 2 ^ 128 ≤ a * b) :
    (c < 2 ^ 32 → a * b / c < 2 ^ 128 →
        multiply_by_rational a b c = Except.ok (a * b / c)) ∧
    (2 ^ 32 ≤ c → (a * b / c + if c / 2 < a * b % c then 1 else 0) < 2 ^ 128 →
        multiply_by_rational a b c =
          Except.ok (a * b / c + if c / 2 < a * b % c then 1 else 0)) := by
  have ha0 : a ≠ 0 := by omega
  have hb0 : b ≠ 0 := by omega
  constructor
  · intro hsmall hfit
    rcases le_total b a with h | h
    · exact mbr_fallback_core a b c h ha0 hb0 hc hac hbc hof _ (if_pos hsmall).symm hfit
    · rw [mbr_comm_aux a b c, mul_comm a b]
      exact mbr_fallback_core b a c h hb0 ha0 hc hbc hac (by rwa [mul_comm]) _
        (if_pos hsmall).symm (by rwa [mul_comm])
  · intro hbig hfit
    have hnot : ¬ c < 2 ^ 32 := by omega
    rcases le_total b a with h | h
    · refine mbr_fallback_core a b c h ha0 hb0 hc hac hbc hof _ ?_ hfit
      rw [if_neg hnot]
      split_ifs <;> omega
    · rw [mbr_comm_aux a b c, mul_comm a b]
      refine mbr_fallback_core b a c h hb0 ha0 hc hbc hac (by rwa [mul_comm]) _ ?_
        (by rwa [mul_comm])
      rw [if_neg hnot]
      split_ifs <;> omega

/-- Witness for C6 at `a = 2 ^ 127 + 1`, `b = 3`, `c = 5` (single-limb
branch of the fallback). -/
theorem multiply_by_rational_fallback_rounding_witness :
    multiply_by_rational (2 ^ 127 + 1) 3 5 = Except.ok ((2 ^ 127 + 1) * 3 / 5) :=
  (multiply_by_rational_fallback_rounding (2 ^ 127 + 1) 3 5 (by norm_num) (by norm_num)
    (by norm_num) (by decide) (by decide) (by norm_num)).1 (by norm_num) (by decide)

end Helpers128
